import Mathlib

/-!
A verification development for a calendar task-planner.

The embedding is shallow and translated from the TypeScript source:

* Dates are modelled at day granularity as `Int` (days since an arbitrary
  epoch).  The source stores ISO date strings and converts with
  `parseISO` / `differenceInDays` / `addDays`; at day granularity those are
  identity / subtraction / addition on the day number, and the
  `endOfWeek` timestamp used by the lane packer compares equal to
  `weekStart + 6` against midnight-valued task dates.
* Task, group and unit identifiers are `Nat` (opaque in the source).
* `Array.prototype.sort` with a comparator is a stable sort; the stable
  order determined by a total preorder is unique, so it is modelled by a
  structurally recursive stable insertion sort `jsSort`.
* `Math.round(num / den)` on exact rationals with `den > 0` is
  `⌊num / den + 1 / 2⌋`, modelled by `jsRound` via integer floor division.
-/

namespace Planner

/-- ExecutingUnit of src/types.ts: id, display name, render color. -/
structure ExecutingUnit where
  id : Nat
  name : String
  color : String
deriving DecidableEq

/-- Task of src/types.ts: id, display name, inclusive start/end dates,
optional executing unit, optional group. -/
structure Task where
  id : Nat
  name : String
  startDate : Int
  endDate : Int
  unitId : Option Nat
  groupId : Option Nat
deriving DecidableEq

/-- TaskGroup of src/types.ts: ordered task ids plus the day-gap recorded
between consecutive members (one fewer than the task count). -/
structure TaskGroup where
  id : Nat
  name : String
  taskIds : List Nat
  intervals : List Int
deriving DecidableEq

/-- Project of src/types.ts: the task, unit and group collections plus a
nominal date range. -/
structure Project where
  id : Nat
  name : String
  startDate : Int
  endDate : Int
  tasks : List Task
  units : List ExecutingUnit
  groups : List TaskGroup
deriving DecidableEq

/-- JavaScript `Math.round (num / den)` for integers with `den > 0`:
floor of `num / den + 1 / 2` (halves round toward positive infinity). -/
def jsRound (num den : Int) : Int :=
  Int.fdiv (2 * num + den) (2 * den)

/-- Stable insertion of `a` into `l`: `a` goes after every element `b`
with `le b a`, so equal elements keep their existing relative order. -/
def insertStable (le : α → α → Bool) (a : α) : List α → List α
  | [] => [a]
  | b :: bs => if le b a then b :: insertStable le a bs else a :: b :: bs

/-- Stable sort used to model `Array.prototype.sort` with a comparator:
elements are inserted left to right, each after previously placed
equal elements. -/
def jsSort (le : α → α → Bool) (l : List α) : List α :=
  l.foldl (fun acc x => insertStable le x acc) []

theorem insertStable_perm (le : α → α → Bool) (a : α) (l : List α) :
    (insertStable le a l).Perm (a :: l) := by
  induction l with
  | nil => simp [insertStable]
  | cons b bs ih =>
    simp only [insertStable]
    by_cases h : le b a = true
    · simp only [h, if_true]
      exact (ih.cons b).trans (List.Perm.swap a b bs)
    · simp [h]

theorem foldl_insertStable_perm (le : α → α → Bool) :
    ∀ (l acc : List α), (l.foldl (fun acc x => insertStable le x acc) acc).Perm (acc ++ l) := by
  intro l
  induction l with
  | nil => intro acc; simp
  | cons x xs ih =>
    intro acc
    simp only [List.foldl_cons]
    refine (ih (insertStable le x acc)).trans ?_
    refine (List.Perm.append_right xs (insertStable_perm le x acc)).trans ?_
    exact (List.perm_middle).symm

theorem jsSort_perm (le : α → α → Bool) (l : List α) : (jsSort le l).Perm l := by
  simpa [jsSort] using foldl_insertStable_perm le l []

theorem jsSort_length (le : α → α → Bool) (l : List α) :
    (jsSort le l).length = l.length :=
  (jsSort_perm le l).length_eq

theorem mem_jsSort (le : α → α → Bool) (l : List α) (a : α) :
    a ∈ jsSort le l ↔ a ∈ l :=
  (jsSort_perm le l).mem_iff

/-- Week-intersection filter of `arrangeTasksInLanes`:
`max(taskStart, weekStart) <= min(taskEnd, weekEnd)`. -/
def intersectsWeek (ws we : Int) (t : Task) : Bool :=
  decide (max t.startDate ws ≤ min t.endDate we)

/-- Sort order of the lane packer's comparator: full (un-clamped) start
date ascending, ties broken by full end date descending. -/
def laneLE (a b : Task) : Bool :=
  decide (a.startDate < b.startDate) ||
    (decide (a.startDate = b.startDate) && decide (b.endDate ≤ a.endDate))

/-- Overlap test of the lane packer, on spans clamped to the week window:
`tStart <= eEnd && tEnd >= eStart` for candidate `t` against existing `e`. -/
def clampedOverlap (ws we : Int) (t e : Task) : Bool :=
  decide (max t.startDate ws ≤ min e.endDate we) &&
    decide (max e.startDate ws ≤ min t.endDate we)

/-- First-fit placement of `arrangeTasksInLanes`: scan lanes in creation
order, append the task to the first lane with no overlapping member,
else open a new lane at the end. -/
def placeTask (ws we : Int) (lanes : List (List Task)) (t : Task) : List (List Task) :=
  match lanes with
  | [] => [[t]]
  | lane :: rest =>
    if lane.any (fun e => clampedOverlap ws we t e) then
      lane :: placeTask ws we rest t
    else
      (lane ++ [t]) :: rest

/-- Lane packer `arrangeTasksInLanes` of the week-grid calendar view:
filter the tasks intersecting `[weekStart, weekStart + 6]`, sort with the
comparator (start ascending, end descending on ties, stable), then place
each task first-fit. -/
def arrangeTasksInLanes (tasks : List Task) (ws : Int) : List (List Task) :=
  let we := ws + 6
  let weekTasks := tasks.filter (intersectsWeek ws we)
  let sortedTasks := jsSort laneLE weekTasks
  sortedTasks.foldl (placeTask ws we) []

/-- Modelled from the claim wording of C7 (not from the source): the sort
key the claim alleges, week-CLAMPED start ascending with ties broken by
week-CLAMPED end descending. -/
def claimClampedLE (ws we : Int) (a b : Task) : Bool :=
  decide (max a.startDate ws < max b.startDate ws) ||
    (decide (max a.startDate ws = max b.startDate ws) &&
      decide (min b.endDate we ≤ min a.endDate we))

/-- Modelled from the claim wording of C7 (not from the source): the lane
packer the claim describes, identical to `arrangeTasksInLanes` except that
tasks are processed in week-clamped sort-key order. -/
def arrangeTasksClaimClamped (tasks : List Task) (ws : Int) : List (List Task) :=
  let we := ws + 6
  let weekTasks := tasks.filter (intersectsWeek ws we)
  let sortedTasks := jsSort (claimClampedLE ws we) weekTasks
  sortedTasks.foldl (placeTask ws we) []

theorem clampedOverlap_comm (ws we : Int) (a b : Task) :
    clampedOverlap ws we a b = clampedOverlap ws we b a := by
  simp only [clampedOverlap]
  exact Bool.and_comm _ _

theorem placeTask_pairwise (ws we : Int) (t : Task) :
    ∀ lanes : List (List Task),
      (∀ l ∈ lanes, l.Pairwise (fun a b => clampedOverlap ws we a b = false)) →
      ∀ l ∈ placeTask ws we lanes t, l.Pairwise (fun a b => clampedOverlap ws we a b = false) := by
  intro lanes
  induction lanes with
  | nil =>
    intro _ l hl
    simp only [placeTask, List.mem_singleton] at hl
    subst hl
    simp
  | cons lane rest ih =>
    intro h l hl
    simp only [placeTask] at hl
    by_cases hov : lane.any (fun e => clampedOverlap ws we t e) = true
    · rw [if_pos hov] at hl
      rcases List.mem_cons.mp hl with h1 | h2
      · exact h1 ▸ h lane (List.mem_cons_self _ _)
      · exact ih (fun l hl => h l (List.mem_cons_of_mem _ hl)) l h2
    · rw [if_neg hov] at hl
      rcases List.mem_cons.mp hl with h1 | h2
      · subst h1
        rw [List.pairwise_append]
        refine ⟨h lane (List.mem_cons_self _ _), List.pairwise_singleton _ _, ?_⟩
        intro a ha b hb
        rw [List.mem_singleton] at hb
        subst hb
        rw [List.any_eq_true] at hov
        push_neg at hov
        have := hov a ha
        rw [clampedOverlap_comm]
        simpa using this
      · exact h l (List.mem_cons_of_mem _ h2)

theorem foldl_placeTask_pairwise (ws we : Int) :
    ∀ (ts : List Task) (lanes : List (List Task)),
      (∀ l ∈ lanes, l.Pairwise (fun a b => clampedOverlap ws we a b = false)) →
      ∀ l ∈ ts.foldl (placeTask ws we) lanes,
        l.Pairwise (fun a b => clampedOverlap ws we a b = false) := by
  intro ts
  induction ts with
  | nil => intro lanes h l hl; exact h l hl
  | cons t ts ih =>
    intro lanes h l hl
    simp only [List.foldl_cons] at hl
    exact ih (placeTask ws we lanes t) (placeTask_pairwise ws we t lanes h) l hl

theorem placeTask_flatten_perm (ws we : Int) (t : Task) :
    ∀ lanes : List (List Task),
      (placeTask ws we lanes t).flatten.Perm (t :: lanes.flatten) := by
  intro lanes
  induction lanes with
  | nil => simp [placeTask]
  | cons lane rest ih =>
    simp only [placeTask]
    by_cases hov : lane.any (fun e => clampedOverlap ws we t e) = true
    · rw [if_pos hov]
      simp only [List.flatten_cons]
      refine ((ih.append_left lane).trans ?_)
      exact List.perm_middle
    · rw [if_neg hov]
      simp only [List.flatten_cons, List.append_assoc, List.singleton_append]
      exact List.perm_middle

theorem foldl_placeTask_flatten_perm (ws we : Int) :
    ∀ (ts : List Task) (lanes : List (List Task)),
      ((ts.foldl (placeTask ws we) lanes).flatten).Perm (lanes.flatten ++ ts) := by
  intro ts
  induction ts with
  | nil => intro lanes; simp
  | cons t ts ih =>
    intro lanes
    simp only [List.foldl_cons]
    refine (ih (placeTask ws we lanes t)).trans ?_
    refine (List.Perm.append_right ts (placeTask_flatten_perm ws we t lanes)).trans ?_
    exact (List.perm_middle).symm

/-- Modelled from the amended claim wording of C7 (not from the source):
first-fit placement described operationally — find the index of the first
lane that accepts the task and append the task to that lane, otherwise
append a fresh lane at the end. -/
def firstFitPlace (ws we : Int) (lanes : List (List Task)) (t : Task) : List (List Task) :=
  match lanes.findIdx? (fun lane => !(lane.any (fun e => clampedOverlap ws we t e))) with
  | some i => lanes.set i (lanes.getD i [] ++ [t])
  | none => lanes ++ [[t]]

/-- Modelled from the amended claim wording of C7 (not from the source):
the packer with the sort key corrected to the full un-clamped dates. -/
def arrangeTasksAmended (tasks : List Task) (ws : Int) : List (List Task) :=
  let we := ws + 6
  (jsSort laneLE (tasks.filter (intersectsWeek ws we))).foldl (firstFitPlace ws we) []

theorem placeTask_eq_firstFitPlace (ws we : Int) (t : Task) :
    ∀ lanes, placeTask ws we lanes t = firstFitPlace ws we lanes t := by
  intro lanes
  induction lanes with
  | nil => simp [placeTask, firstFitPlace]
  | cons lane rest ih =>
    simp only [placeTask, firstFitPlace, List.findIdx?_cons]
    by_cases hov : lane.any (fun e => clampedOverlap ws we t e) = true
    · rw [if_pos hov]
      have hpred : (!(lane.any (fun e => clampedOverlap ws we t e))) = false := by
        simp [hov]
      rw [hpred]
      simp only [Bool.false_eq_true, if_false, List.findIdx?_succ]
      rw [ih]
      simp only [firstFitPlace]
      cases hidx : rest.findIdx? (fun l => !(l.any (fun e => clampedOverlap ws we t e))) with
      | none => simp [hidx]
      | some j => simp [hidx]
    · rw [if_neg hov]
      have hpred : (!(lane.any (fun e => clampedOverlap ws we t e))) = true := by
        simp [Bool.eq_false_iff.mpr hov]
      rw [hpred]
      simp

/-- Lane partition fact shared by the packer theorems: the flattened lanes
are a permutation of the week-intersecting input tasks. -/
theorem arrangeTasksInLanes_flatten_perm (tasks : List Task) (ws : Int) :
    ((arrangeTasksInLanes tasks ws).flatten).Perm
      (tasks.filter (intersectsWeek ws (ws + 6))) := by
  have h := foldl_placeTask_flatten_perm ws (ws + 6)
    (jsSort laneLE (tasks.filter (intersectsWeek ws (ws + 6)))) []
  simp only [arrangeTasksInLanes]
  refine h.trans ?_
  simpa using jsSort_perm laneLE _

/-- C7. The claim says the packer processes tasks sorted by week-CLAMPED
start ascending with ties broken by week-clamped end descending.  The
source sorts by the FULL un-clamped dates; for two tasks starting before
the week on different days the two orders produce different lanes. -/
theorem c7_counterexample :
    arrangeTasksInLanes [Task.mk 1 "A" (-3) 0 none none, Task.mk 2 "B" (-1) 6 none none] 0 =
      [[Task.mk 1 "A" (-3) 0 none none], [Task.mk 2 "B" (-1) 6 none none]] ∧
    arrangeTasksClaimClamped [Task.mk 1 "A" (-3) 0 none none, Task.mk 2 "B" (-1) 6 none none] 0 =
      [[Task.mk 2 "B" (-1) 6 none none], [Task.mk 1 "A" (-3) 0 none none]] ∧
    arrangeTasksInLanes [Task.mk 1 "A" (-3) 0 none none, Task.mk 2 "B" (-1) 6 none none] 0 ≠
      arrangeTasksClaimClamped [Task.mk 1 "A" (-3) 0 none none, Task.mk 2 "B" (-1) 6 none none] 0 := by
  refine ⟨by decide, by decide, by decide⟩

/-- C7 (amended): the packer processes the tasks intersecting the week
sorted by FULL (un-clamped) start date ascending with ties broken by full
end date descending (stable), places each task into the first existing
lane in creation order containing no member overlapping it on week-clamped
spans, and opens a new lane appended at the end only when no existing lane
accepts it. -/
theorem c7_amended_lane_order (tasks : List Task) (ws : Int) :
    arrangeTasksInLanes tasks ws = arrangeTasksAmended tasks ws := by
  simp only [arrangeTasksInLanes, arrangeTasksAmended]
  have hfun : placeTask ws (ws + 6) = firstFitPlace ws (ws + 6) := by
    funext lanes t
    exact placeTask_eq_firstFitPlace ws (ws + 6) t lanes
  rw [hfun]

/-- C8: within any single lane produced by the packer, for all pairs of
distinct tasks the week-clamped spans do not overlap, where overlap is
`max(startA, startB) <= min(endA, endB)` on spans clamped to
`[weekStart, weekStart + 6]`. -/
theorem c8_no_overlap (tasks : List Task) (ws : Int) (lane : List Task)
    (h : lane ∈ arrangeTasksInLanes tasks ws) :
    lane.Pairwise (fun a b =>
      ¬ (max (max a.startDate ws) (max b.startDate ws) ≤
          min (min a.endDate (ws + 6)) (min b.endDate (ws + 6)))) := by
  have base := foldl_placeTask_pairwise ws (ws + 6)
    (jsSort laneLE (tasks.filter (intersectsWeek ws (ws + 6)))) []
    (by intro l hl; simp at hl) lane (by simpa [arrangeTasksInLanes] using h)
  refine base.imp ?_
  intro a b hab hcon
  simp only [clampedOverlap, Bool.and_eq_false_iff, decide_eq_false_iff_not, not_le] at hab
  omega

/-- C8 witness: a concrete two-task lane.  Tasks on days 0-1 and 3-4 of
the week land in the same lane and their spans do not overlap. -/
theorem c8_witness :
    [Task.mk 1 "A" 0 1 none none, Task.mk 2 "B" 3 4 none none] ∈
      arrangeTasksInLanes [Task.mk 1 "A" 0 1 none none, Task.mk 2 "B" 3 4 none none] 0 ∧
    ([Task.mk 1 "A" 0 1 none none, Task.mk 2 "B" 3 4 none none]).Pairwise (fun a b =>
      ¬ (max (max a.startDate 0) (max b.startDate 0) ≤
          min (min a.endDate (0 + 6)) (min b.endDate (0 + 6)))) :=
  ⟨by decide,
    c8_no_overlap [Task.mk 1 "A" 0 1 none none, Task.mk 2 "B" 3 4 none none] 0
      [Task.mk 1 "A" 0 1 none none, Task.mk 2 "B" 3 4 none none] (by decide)⟩

/-- C10: the lanes returned by the packer contain exactly the input tasks
whose spans intersect `[weekStart, weekStart + 6]`: the flattened lanes
are a permutation of the intersecting tasks, so no task is dropped,
duplicated, or included spuriously. -/
theorem c10_lane_partition (tasks : List Task) (ws : Int) :
    ((arrangeTasksInLanes tasks ws).flatten).Perm
      (tasks.filter (intersectsWeek ws (ws + 6))) :=
  arrangeTasksInLanes_flatten_perm tasks ws

/-- Sort order used on tasks by the group operations: start date
ascending, stable on ties. -/
def startLE (a b : Task) : Bool :=
  decide (a.startDate ≤ b.startDate)

/-- Lookup `project.tasks.find(t => t.id === id)` (first match). -/
def findTask (tasks : List Task) (i : Nat) : Option Task :=
  tasks.find? (fun t => t.id == i)

/-- Lookup through `taskMap = new Map(tasks.map(t => [t.id, t]))`: with
duplicate ids the Map keeps the last entry. -/
def taskMapGet (tasks : List Task) (i : Nat) : Option Task :=
  tasks.reverse.find? (fun t => t.id == i)

/-- The `selectedTasks` of `handleCreateGroup`: resolve the selected ids
against the task collection, drop missing ones, sort by start date. -/
def selectedSorted (tasks : List Task) (sids : List Nat) : List Task :=
  jsSort startLE (sids.filterMap (findTask tasks))

/-- The interval computation of `handleCreateGroup` and `handleUnlinkTask`:
`intervals[i] = max(0, start_{i+1} - end_i)` over adjacent sorted pairs. -/
def adjacentIntervals (ts : List Task) : List Int :=
  (ts.dropLast.zip ts.tail).map (fun ab => max 0 (ab.2.startDate - ab.1.endDate))

/-- The per-group cleanup of `handleCreateGroup`: purge the newly grouped
ids from an existing group; a group losing all members maps to `none`, a
group losing some members keeps the remaining ids and recomputes its
intervals over the remaining tasks re-sorted by current start date. -/
def purgeGroup (tasks : List Task) (newIds : List Nat) (g : TaskGroup) : Option TaskGroup :=
  let remaining := g.taskIds.filter (fun i => !(newIds.contains i))
  if remaining.length = 0 then none
  else if remaining.length ≠ g.taskIds.length then
    let remTasks := jsSort startLE (remaining.filterMap (findTask tasks))
    let newIntervals := if 1 < remTasks.length then adjacentIntervals remTasks else []
    some { g with taskIds := remaining, intervals := newIntervals }
  else some g

/-- Errors surfaced to the user by the group operations. -/
inductive GroupError
  | insufficientSelection
deriving DecidableEq

/-- The guard `!groupName || groupName.trim() === ''` of the handler: a
name is blank exactly when every character is whitespace (so trimming
leaves the empty string), which also covers the empty name itself. -/
def blankName (s : String) : Bool :=
  s.data.all (fun c => c.isWhitespace)

/-- The `handleCreateGroup` handler: abort silently on a blank name,
abort with `insufficientSelection` when fewer than two selected tasks
resolve, otherwise build the new group (sorted ids plus adjacent
intervals), purge the selected ids from every existing group, and point
every selected task's `groupId` at the new group. -/
def handleCreateGroup (p : Project) (sids : List Nat) (gname : String) (newGid : Nat) :
    Project × Option GroupError :=
  if blankName gname then (p, none)
  else
    let selectedTasks := selectedSorted p.tasks sids
    if selectedTasks.length < 2 then (p, some GroupError.insufficientSelection)
    else
      let taskIds := selectedTasks.map (fun t => t.id)
      let intervals := adjacentIntervals selectedTasks
      let cleanedGroups := p.groups.filterMap (purgeGroup p.tasks taskIds)
      let newGroup : TaskGroup := ⟨newGid, gname, taskIds, intervals⟩
      let updatedTasks := p.tasks.map (fun t =>
        if taskIds.contains t.id then { t with groupId := some newGid } else t)
      ({ p with tasks := updatedTasks, groups := cleanedGroups ++ [newGroup] }, none)

/-- The `handleUnlinkTask` handler: remove the task from the group's id
list; if no member remains the group is dropped, otherwise the group keeps
the remaining ids with intervals recomputed over the remaining tasks
re-sorted by start date; the unlinked task's `groupId` is cleared. -/
def handleUnlinkTask (p : Project) (taskId groupId : Nat) : Project :=
  match p.groups.find? (fun g => g.id == groupId) with
  | none => p
  | some group =>
    let remaining := group.taskIds.filter (fun i => i != taskId)
    let updatedGroups :=
      if remaining.length = 0 then
        p.groups.filter (fun g => !(g.id == groupId))
      else
        let remTasks := jsSort startLE (remaining.filterMap (taskMapGet p.tasks))
        let newIntervals := adjacentIntervals remTasks
        p.groups.map (fun g =>
          if g.id == groupId then { group with taskIds := remaining, intervals := newIntervals }
          else g)
    let updatedTasks := p.tasks.map (fun t =>
      if t.id == taskId then { t with groupId := none } else t)
    { p with tasks := updatedTasks, groups := updatedGroups }

/-- The `handleDeleteGroup` handler: drop the group and clear `groupId`
on every task that referenced it. -/
def handleDeleteGroup (p : Project) (groupId : Nat) : Project :=
  { p with
    groups := p.groups.filter (fun g => !(g.id == groupId)),
    tasks := p.tasks.map (fun t =>
      if t.groupId == some groupId then { t with groupId := none } else t) }

theorem purgeGroup_eq_some (tasks : List Task) (nids : List Nat) {g g' : TaskGroup}
    (h : purgeGroup tasks nids g = some g') :
    g'.id = g.id ∧ g'.taskIds = g.taskIds.filter (fun i => !(nids.contains i)) ∧
      g.taskIds.filter (fun i => !(nids.contains i)) ≠ [] := by
  simp only [purgeGroup] at h
  by_cases h0 : (g.taskIds.filter (fun i => !(nids.contains i))).length = 0
  · rw [if_pos h0] at h
    exact absurd h (by simp)
  · rw [if_neg h0] at h
    have hne : g.taskIds.filter (fun i => !(nids.contains i)) ≠ [] := by
      intro hnil
      exact h0 (by rw [hnil]; rfl)
    by_cases h1 : (g.taskIds.filter (fun i => !(nids.contains i))).length ≠ g.taskIds.length
    · rw [if_pos h1] at h
      have := Option.some.inj h
      subst this
      exact ⟨rfl, rfl, hne⟩
    · rw [if_neg h1] at h
      have := Option.some.inj h
      subst this
      push_neg at h1
      have hfe : g.taskIds.filter (fun i => !(nids.contains i)) = g.taskIds :=
        (List.filter_sublist g.taskIds).eq_of_length h1
      exact ⟨rfl, hfe.symm, hne⟩

theorem purgeGroup_eq_none (tasks : List Task) (nids : List Nat) {g : TaskGroup}
    (h : purgeGroup tasks nids g = none) :
    g.taskIds.filter (fun i => !(nids.contains i)) = [] := by
  simp only [purgeGroup] at h
  by_cases h0 : (g.taskIds.filter (fun i => !(nids.contains i))).length = 0
  · exact List.length_eq_zero.mp h0
  · rw [if_neg h0] at h
    by_cases h1 : (g.taskIds.filter (fun i => !(nids.contains i))).length ≠ g.taskIds.length
    · rw [if_pos h1] at h
      exact absurd h (by simp)
    · rw [if_neg h1] at h
      exact absurd h (by simp)

theorem handleCreateGroup_success (p : Project) (sids : List Nat) (gname : String) (newGid : Nat)
    (hname : blankName gname = false) (hlen : ¬ (selectedSorted p.tasks sids).length < 2) :
    handleCreateGroup p sids gname newGid =
      ({ p with
          tasks := p.tasks.map (fun t =>
            if ((selectedSorted p.tasks sids).map (fun t => t.id)).contains t.id then
              { t with groupId := some newGid }
            else t),
          groups :=
            p.groups.filterMap
                (purgeGroup p.tasks ((selectedSorted p.tasks sids).map (fun t => t.id)))
              ++ [⟨newGid, gname, (selectedSorted p.tasks sids).map (fun t => t.id),
                   adjacentIntervals (selectedSorted p.tasks sids)⟩] }, none) := by
  simp [handleCreateGroup, hname, hlen]

/-- C9: a createGroup attempt with fewer than two selected ids (and a
non-blank name — a blank name cancels the prompt before any check) fails
with `insufficientSelection` and returns the project collections
completely unchanged. -/
theorem c9_insufficient_selection (p : Project) (sids : List Nat) (gname : String) (newGid : Nat)
    (hname : blankName gname = false) (hlen : sids.length < 2) :
    handleCreateGroup p sids gname newGid = (p, some GroupError.insufficientSelection) := by
  have h1 : (selectedSorted p.tasks sids).length = (sids.filterMap (findTask p.tasks)).length :=
    jsSort_length _ _
  have h2 := List.length_filterMap_le (findTask p.tasks) sids
  have hsel : (selectedSorted p.tasks sids).length < 2 := by omega
  simp [handleCreateGroup, hname, hsel]

/-- C9 witness: one selected id on an empty project aborts with
`insufficientSelection` and no state change. -/
theorem c9_witness :
    blankName "g" = false ∧ ([42] : List Nat).length < 2 ∧
      handleCreateGroup (Project.mk 0 "P" 0 30 [] [] []) [42] "g" 9 =
        (Project.mk 0 "P" 0 30 [] [] [], some GroupError.insufficientSelection) :=
  ⟨by decide, by decide,
    c9_insufficient_selection (Project.mk 0 "P" 0 30 [] [] []) [42] "g" 9
      (by decide) (by decide)⟩

/-- Three tasks in group 5; selecting tasks 2 and 3 into a new group
reduces group 5 to the single member 1. -/
def projC1 : Project :=
  ⟨0, "P", 0, 30,
    [⟨1, "a", 0, 1, none, some 5⟩, ⟨2, "b", 10, 11, none, some 5⟩,
      ⟨3, "c", 20, 21, none, some 5⟩],
    [], [⟨5, "G", [1, 2, 3], [9, 9]⟩]⟩

/-- C1 counterexample: after `createGroup([2,3])` purges group 5 down to
the single member 1, group 5 is KEPT as a singleton group (with empty
intervals) — it is not removed from the group collection as the claim
states. -/
theorem c1_counterexample :
    ((handleCreateGroup projC1 [2, 3] "x" 9).1.groups.map (fun g => (g.id, g.taskIds))) =
      [(5, [1]), (9, [2, 3])] ∧
    ∃ g ∈ (handleCreateGroup projC1 [2, 3] "x" 9).1.groups, g.id = 5 ∧ g.taskIds.length = 1 :=
  ⟨by decide, by decide⟩

/-- C1 (amended): after the selected ids are purged from every
pre-existing group, a pre-existing group is removed from the collection
exactly when it is left with ZERO members; a group left with one or more
members is kept with exactly the remaining ids (a one-member group
survives as a singleton). -/
theorem c1_amended_group_purge (p : Project) (sids : List Nat) (gname : String) (newGid : Nat)
    (hname : blankName gname = false) (hlen : ¬ (selectedSorted p.tasks sids).length < 2)
    (hG : (p.groups.map TaskGroup.id).Nodup)
    (hfresh : newGid ∉ p.groups.map TaskGroup.id)
    (g : TaskGroup) (hg : g ∈ p.groups) :
    (g.taskIds.filter
        (fun i => !(((selectedSorted p.tasks sids).map (fun t => t.id)).contains i)) = [] →
      ∀ g2 ∈ (handleCreateGroup p sids gname newGid).1.groups, g2.id ≠ g.id) ∧
    (g.taskIds.filter
        (fun i => !(((selectedSorted p.tasks sids).map (fun t => t.id)).contains i)) ≠ [] →
      ∃ g2 ∈ (handleCreateGroup p sids gname newGid).1.groups, g2.id = g.id ∧
        g2.taskIds = g.taskIds.filter
          (fun i => !(((selectedSorted p.tasks sids).map (fun t => t.id)).contains i))) := by
  rw [handleCreateGroup_success p sids gname newGid hname hlen]
  constructor
  · intro hrem g2 hg2 heq
    simp only [List.mem_append, List.mem_singleton] at hg2
    rcases hg2 with hg2 | hg2
    · rcases List.mem_filterMap.mp hg2 with ⟨g3, hg3, hpg⟩
      obtain ⟨hid, hids, hne⟩ :=
        purgeGroup_eq_some p.tasks ((selectedSorted p.tasks sids).map (fun t => t.id)) hpg
      have hg3g : g3 = g := List.inj_on_of_nodup_map hG hg3 hg (hid.symm.trans heq)
      subst hg3g
      exact hne hrem
    · subst hg2
      apply hfresh
      have h2 : newGid = g.id := heq
      rw [h2]
      exact List.mem_map_of_mem TaskGroup.id hg
  · intro hrem
    cases hpg : purgeGroup p.tasks ((selectedSorted p.tasks sids).map (fun t => t.id)) g with
    | none =>
      exact absurd
        (purgeGroup_eq_none p.tasks ((selectedSorted p.tasks sids).map (fun t => t.id)) hpg) hrem
    | some g' =>
      obtain ⟨hid, hids, -⟩ :=
        purgeGroup_eq_some p.tasks ((selectedSorted p.tasks sids).map (fun t => t.id)) hpg
      exact ⟨g', List.mem_append_left _ (List.mem_filterMap.mpr ⟨g, hg, hpg⟩), hid, hids⟩

/-- C1 witness: on `projC1`, group 5 loses members 2 and 3, remains with
member 1, and is kept with exactly that member. -/
theorem c1_witness :
    ((⟨5, "G", [1, 2, 3], [9, 9]⟩ : TaskGroup).taskIds.filter
        (fun i => !(((selectedSorted projC1.tasks [2, 3]).map (fun t => t.id)).contains i)) = [] →
      ∀ g2 ∈ (handleCreateGroup projC1 [2, 3] "x" 9).1.groups, g2.id ≠ (5 : Nat)) ∧
    ((⟨5, "G", [1, 2, 3], [9, 9]⟩ : TaskGroup).taskIds.filter
        (fun i => !(((selectedSorted projC1.tasks [2, 3]).map (fun t => t.id)).contains i)) ≠ [] →
      ∃ g2 ∈ (handleCreateGroup projC1 [2, 3] "x" 9).1.groups, g2.id = (5 : Nat) ∧
        g2.taskIds = (⟨5, "G", [1, 2, 3], [9, 9]⟩ : TaskGroup).taskIds.filter
          (fun i => !(((selectedSorted projC1.tasks [2, 3]).map (fun t => t.id)).contains i))) :=
  c1_amended_group_purge projC1 [2, 3] "x" 9 (by decide) (by decide) (by decide) (by decide)
    ⟨5, "G", [1, 2, 3], [9, 9]⟩ (by decide)

/-- Two tasks in group 7; unlinking task 2 leaves only task 1. -/
def projC2 : Project :=
  ⟨0, "P", 0, 30,
    [⟨1, "a", 0, 1, none, some 7⟩, ⟨2, "b", 10, 11, none, some 7⟩], [],
    [⟨7, "G", [1, 2], [9]⟩]⟩

/-- C2 counterexample: unlinking task 2 from the two-member group 7 keeps
group 7 as a singleton with member 1 (empty intervals) and leaves task 1
still pointing at group 7 — the group is not deleted and the sole
remaining member's `groupId` is not cleared, contrary to the claim. -/
theorem c2_counterexample :
    (handleUnlinkTask projC2 2 7).groups = [⟨7, "G", [1], []⟩] ∧
    ((handleUnlinkTask projC2 2 7).tasks.map (fun t => (t.id, t.groupId))) =
      [(1, some 7), (2, none)] :=
  ⟨by decide, by decide⟩

/-- C2 (amended): unlinking a member always clears the unlinked task's
`groupId`; every OTHER task — in particular every remaining member of the
group — survives completely unchanged, its `groupId` untouched; the group
is deleted from the collection exactly when ZERO members remain, and
otherwise (including when exactly one member remains) the group is kept
with precisely the remaining ids. -/
theorem c2_amended_unlink (p : Project) (taskId groupId : Nat) (g0 : TaskGroup)
    (hfind : p.groups.find? (fun g => g.id == groupId) = some g0) :
    (∀ t ∈ (handleUnlinkTask p taskId groupId).tasks, t.id = taskId → t.groupId = none) ∧
    (∀ t ∈ p.tasks, ¬ t.id = taskId → t ∈ (handleUnlinkTask p taskId groupId).tasks) ∧
    (g0.taskIds.filter (fun i => i != taskId) = [] →
      (handleUnlinkTask p taskId groupId).groups = p.groups.filter (fun g => !(g.id == groupId))) ∧
    (g0.taskIds.filter (fun i => i != taskId) ≠ [] →
      ∃ g2 ∈ (handleUnlinkTask p taskId groupId).groups, g2.id = groupId ∧
        g2.taskIds = g0.taskIds.filter (fun i => i != taskId)) := by
  refine ⟨?_, ?_, ?_, ?_⟩
  · intro t ht htid
    simp only [handleUnlinkTask, hfind, List.mem_map] at ht
    rcases ht with ⟨t0, ht0, hrw⟩
    by_cases hb : (t0.id == taskId) = true
    · rw [if_pos hb] at hrw
      exact hrw ▸ rfl
    · rw [if_neg hb] at hrw
      subst hrw
      exact absurd (by simpa using htid) hb
  · intro t ht htne
    simp only [handleUnlinkTask, hfind, List.mem_map]
    refine ⟨t, ht, ?_⟩
    rw [if_neg (by simpa using htne)]
  · intro hrem
    have h0 : (g0.taskIds.filter (fun i => i != taskId)).length = 0 := by simp [hrem]
    simp only [handleUnlinkTask, hfind, h0, if_pos]
  · intro hrem
    have h0 : ¬ (g0.taskIds.filter (fun i => i != taskId)).length = 0 := by
      simpa [List.length_eq_zero] using hrem
    have hg0 : g0 ∈ p.groups := List.mem_of_find?_eq_some hfind
    have hb : (g0.id == groupId) = true := by
      have h := List.find?_some hfind
      exact h
    simp only [handleUnlinkTask, hfind, if_neg h0]
    refine ⟨_, List.mem_map_of_mem _ hg0, ?_, ?_⟩
    · simp only [hb, if_true]
      simpa using hb
    · simp only [hb, if_true]

theorem startLE_false {a b : Task} (h : ¬ startLE a b = true) :
    b.startDate < a.startDate := by
  simp only [startLE, decide_eq_true_eq] at h
  omega

theorem insertStable_sorted_startLE (a : Task) :
    ∀ l : List Task, l.Pairwise (fun x y => x.startDate ≤ y.startDate) →
      (insertStable startLE a l).Pairwise (fun x y => x.startDate ≤ y.startDate) := by
  intro l
  induction l with
  | nil => intro _; simp [insertStable]
  | cons b bs ih =>
    intro h
    rw [List.pairwise_cons] at h
    obtain ⟨hb, hbs⟩ := h
    simp only [insertStable]
    by_cases hle : startLE b a = true
    · rw [if_pos hle]
      rw [List.pairwise_cons]
      refine ⟨?_, ih hbs⟩
      intro y hy
      rcases List.mem_cons.mp ((insertStable_perm startLE a bs).mem_iff.mp hy) with rfl | hy2
      · simpa [startLE, decide_eq_true_eq] using hle
      · exact hb y hy2
    · rw [if_neg hle]
      have hab : a.startDate ≤ b.startDate := le_of_lt (startLE_false hle)
      rw [List.pairwise_cons]
      refine ⟨?_, List.pairwise_cons.mpr ⟨hb, hbs⟩⟩
      intro y hy
      rcases List.mem_cons.mp hy with rfl | hy2
      · exact hab
      · exact le_trans hab (hb y hy2)

theorem foldl_insertStable_sorted_startLE :
    ∀ (l acc : List Task), acc.Pairwise (fun x y => x.startDate ≤ y.startDate) →
      (l.foldl (fun acc x => insertStable startLE x acc) acc).Pairwise
        (fun x y => x.startDate ≤ y.startDate) := by
  intro l
  induction l with
  | nil => intro acc h; exact h
  | cons x xs ih =>
    intro acc h
    exact ih (insertStable startLE x acc) (insertStable_sorted_startLE x acc h)

theorem jsSort_startLE_sorted (l : List Task) :
    (jsSort startLE l).Pairwise (fun x y => x.startDate ≤ y.startDate) :=
  foldl_insertStable_sorted_startLE l [] (by simp)

theorem filter_insertStable_of_ne (a : Task) (s : Int) (hne : ¬ a.startDate = s) :
    ∀ l : List Task,
      (insertStable startLE a l).filter (fun t => t.startDate == s) =
        l.filter (fun t => t.startDate == s) := by
  intro l
  induction l with
  | nil => simp [insertStable, List.filter_cons, hne]
  | cons b bs ih =>
    simp only [insertStable]
    by_cases hle : startLE b a = true
    · rw [if_pos hle]
      simp only [List.filter_cons, ih]
    · rw [if_neg hle]
      simp [List.filter_cons, hne]

theorem filter_insertStable_of_eq (a : Task) (s : Int) (heq : a.startDate = s) :
    ∀ l : List Task, l.Pairwise (fun x y => x.startDate ≤ y.startDate) →
      (insertStable startLE a l).filter (fun t => t.startDate == s) =
        l.filter (fun t => t.startDate == s) ++ [a] := by
  intro l
  induction l with
  | nil => intro _; simp [insertStable, List.filter_cons, heq]
  | cons b bs ih =>
    intro hp
    rw [List.pairwise_cons] at hp
    obtain ⟨hb, hbs⟩ := hp
    simp only [insertStable]
    by_cases hle : startLE b a = true
    · rw [if_pos hle]
      simp only [List.filter_cons, ih hbs]
      by_cases hpb : (b.startDate == s) = true
      · simp [hpb]
      · simp [hpb]
    · rw [if_neg hle]
      have hbgt : s < b.startDate := heq ▸ startLE_false hle
      have hfn : (b :: bs).filter (fun t => t.startDate == s) = [] := by
        rw [List.filter_eq_nil_iff]
        intro t ht
        rcases List.mem_cons.mp ht with rfl | ht2
        · simp only [beq_iff_eq]
          omega
        · have := hb t ht2
          simp only [beq_iff_eq]
          omega
      rw [hfn]
      simp [List.filter_cons, heq, hfn]

theorem foldl_insertStable_filter_startLE (s : Int) :
    ∀ (l acc : List Task), acc.Pairwise (fun x y => x.startDate ≤ y.startDate) →
      ((l.foldl (fun acc x => insertStable startLE x acc) acc).filter
          (fun t => t.startDate == s)) =
        acc.filter (fun t => t.startDate == s) ++ l.filter (fun t => t.startDate == s) := by
  intro l
  induction l with
  | nil => intro acc h; simp
  | cons x xs ih =>
    intro acc h
    simp only [List.foldl_cons]
    rw [ih (insertStable startLE x acc) (insertStable_sorted_startLE x acc h)]
    by_cases hx : x.startDate = s
    · rw [filter_insertStable_of_eq x s hx acc h]
      simp [List.filter_cons, hx]
    · rw [filter_insertStable_of_ne x s hx acc]
      simp [List.filter_cons, hx]

/-- Stability of the group sort: among tasks sharing a start date, the
sorted output keeps the input (selection) order. -/
theorem jsSort_startLE_stable (l : List Task) (s : Int) :
    (jsSort startLE l).filter (fun t => t.startDate == s) =
      l.filter (fun t => t.startDate == s) := by
  simpa [jsSort] using foldl_insertStable_filter_startLE s l [] (by simp)

theorem adjacentIntervals_length (ts : List Task) :
    (adjacentIntervals ts).length = ts.length - 1 := by
  simp [adjacentIntervals]

theorem adjacentIntervals_get (ts : List Task) (i : Nat) (h : i + 1 < ts.length) :
    (adjacentIntervals ts).get ⟨i, by rw [adjacentIntervals_length]; omega⟩ =
      max 0 ((ts.get ⟨i + 1, h⟩).startDate - (ts.get ⟨i, by omega⟩).endDate) := by
  simp [adjacentIntervals, List.getElem_zip, List.getElem_dropLast, List.getElem_tail]

/-- Modelled from the claim wording of C6 (not from the source): start
date ascending with ties broken by ascending task id. -/
def claimStartIdLE (a b : Task) : Bool :=
  decide (a.startDate < b.startDate) ||
    (decide (a.startDate = b.startDate) && decide (a.id <= b.id))

/-- C6 counterexample: two tasks with identical dates selected in the
order [2, 1].  The claim says ties are ordered by id, which would give
taskIds [1, 2]; the source sort is stable in selection order and the
created group records taskIds [2, 1]. -/
theorem c6_counterexample :
    ((handleCreateGroup
        (Project.mk 0 "P" 0 30
          [Task.mk 1 "a" 0 0 none none, Task.mk 2 "b" 0 0 none none] [] [])
        [2, 1] "g" 99).1.groups.map (fun g => g.taskIds)) = [[2, 1]] ∧
    ((jsSort claimStartIdLE
        ([2, 1].filterMap
          (findTask [Task.mk 1 "a" 0 0 none none, Task.mk 2 "b" 0 0 none none]))).map
      (fun t => t.id)) = [1, 2] ∧
    ([[2, 1]] : List (List Nat)) ≠ [[1, 2]] :=
  ⟨by decide, by decide, by decide⟩

/-- C6 (amended): for every createGroup call with at least 2 resolved
selected tasks, the new group appended to the collection has `taskIds`
equal to the selected tasks sorted by start date ascending — stable in
SELECTION order on ties, not ordered by id — and
`intervals[i] = max(0, start_{i+1} - end_i)` over adjacent sorted pairs,
with `intervals.length = taskIds.length - 1`. -/
theorem c6_amended_create_group (p : Project) (sids : List Nat) (gname : String) (newGid : Nat)
    (hname : blankName gname = false) (hlen : ¬ (selectedSorted p.tasks sids).length < 2) :
    (handleCreateGroup p sids gname newGid).1.groups.getLast? =
      some ⟨newGid, gname, (selectedSorted p.tasks sids).map (fun t => t.id),
            adjacentIntervals (selectedSorted p.tasks sids)⟩ ∧
    (adjacentIntervals (selectedSorted p.tasks sids)).length =
      ((selectedSorted p.tasks sids).map (fun t => t.id)).length - 1 ∧
    (selectedSorted p.tasks sids).Pairwise (fun a b => a.startDate ≤ b.startDate) ∧
    (∀ s : Int, (selectedSorted p.tasks sids).filter (fun t => t.startDate == s) =
      (sids.filterMap (findTask p.tasks)).filter (fun t => t.startDate == s)) ∧
    (∀ i : Nat, ∀ h : i + 1 < (selectedSorted p.tasks sids).length,
      (adjacentIntervals (selectedSorted p.tasks sids)).get
          ⟨i, by rw [adjacentIntervals_length]; omega⟩ =
        max 0 (((selectedSorted p.tasks sids).get ⟨i + 1, h⟩).startDate -
          ((selectedSorted p.tasks sids).get ⟨i, by omega⟩).endDate)) := by
  refine ⟨?_, ?_, ?_, ?_, ?_⟩
  · rw [handleCreateGroup_success p sids gname newGid hname hlen]
    simp
  · rw [adjacentIntervals_length, List.length_map]
  · exact jsSort_startLE_sorted _
  · intro s
    exact jsSort_startLE_stable _ s
  · intro i h
    exact adjacentIntervals_get (selectedSorted p.tasks sids) i h

/-- C6 witness: the spec scenario.  Tasks A on days 0-1 and B on days 4-5
(2024-01-01..01-02 and 2024-01-05..01-06) grouped in selection order
[1, 2] give taskIds [1, 2] and intervals [3]. -/
theorem c6_witness :
    (handleCreateGroup
        (Project.mk 0 "P" 0 30
          [Task.mk 1 "A" 0 1 none none, Task.mk 2 "B" 4 5 none none] [] [])
        [1, 2] "g" 9).1.groups.getLast? =
      some (TaskGroup.mk 9 "g" [1, 2] [3]) := by
  have h := c6_amended_create_group
    (Project.mk 0 "P" 0 30
      [Task.mk 1 "A" 0 1 none none, Task.mk 2 "B" 4 5 none none] [] [])
    [1, 2] "g" 9 (by decide) (by decide)
  exact h.1.trans (by decide)

/-- Gesture kinds of the drag controller. -/
inductive DragType
  | move
  | resizeStart
  | resizeEnd
deriving DecidableEq

/-- Snapshot entry of `DragState.relatedTasks`: id plus the start/end
captured at gesture start. -/
structure RelatedTask where
  id : Nat
  initialStart : Int
  initialEnd : Int
deriving DecidableEq

/-- The transient `DragState` captured by `handleTaskDragStart`. -/
structure DragSt where
  task : Task
  type : DragType
  initialMouseX : Int
  initialMouseY : Int
  dayWidth : Int
  weekHeight : Int
  taskInitialStartDate : Int
  taskInitialEndDate : Int
  relatedTasks : List RelatedTask
deriving DecidableEq

/-- The related-set computation of `handleTaskDragStart`: for a move on a
grouped task, snapshot every task sharing the `groupId`; otherwise
snapshot just the one task. -/
def buildRelatedTasks (tasks : List Task) (task : Task) (ty : DragType) : List RelatedTask :=
  if task.groupId.isSome && ty == DragType.move then
    (tasks.filter (fun t => t.groupId == task.groupId)).map
      (fun t => ⟨t.id, t.startDate, t.endDate⟩)
  else
    [⟨task.id, task.startDate, task.endDate⟩]

/-- The `handleTaskDragStart` handler: look the task up fresh in the live
collection (falling back to the prop), capture its dates, the pointer
origin, the cell metrics (week height falls back to 120 when
non-positive), and the related set. -/
def handleTaskDragStart (p : Project) (taskProp : Task) (ty : DragType)
    (mx my dayWidth weekHeight : Int) : DragSt :=
  let task := (p.tasks.find? (fun t => t.id == taskProp.id)).getD taskProp
  { task := task, type := ty, initialMouseX := mx, initialMouseY := my,
    dayWidth := dayWidth,
    weekHeight := if 0 < weekHeight then weekHeight else 120,
    taskInitialStartDate := task.startDate,
    taskInitialEndDate := task.endDate,
    relatedTasks := buildRelatedTasks p.tasks task ty }

/-- One step of the move branch: `findIndex` the related id in the
working array and overwrite that task's dates from the snapshot plus the
offset, preserving the snapshotted duration. -/
def updateFirstById (tasks : List Task) (r : RelatedTask) (off : Int) : List Task :=
  match tasks with
  | [] => []
  | t :: ts =>
    if t.id == r.id then
      { t with startDate := r.initialStart + off,
               endDate := r.initialStart + off + (r.initialEnd - r.initialStart) } :: ts
    else
      t :: updateFirstById ts r off

/-- The resize branch clamps: a new start never passes the fixed end, a
new end never passes the fixed start. -/
def resizeDates (ty : DragType) (s0 e0 off : Int) : Int × Int :=
  match ty with
  | DragType.resizeStart =>
    let s := s0 + off
    (if e0 < s then e0 else s, e0)
  | DragType.resizeEnd =>
    let e := e0 + off
    (s0, if e < s0 then s0 else e)
  | DragType.move => (s0, e0)

/-- The `handleMouseMove` handler: below the 3px threshold nothing
changes; a move applies the combined day offset
`round(dx / dayWidth) + round(dy / weekHeight) * 7` to every related
task's snapshot; a resize applies the horizontal offset to the dragged
task only, clamped against the fixed opposite endpoint. -/
def handleMouseMove (d : DragSt) (tempTasks : List Task) (mx my : Int) : List Task :=
  let dx := mx - d.initialMouseX
  let dy := my - d.initialMouseY
  if dx.natAbs < 3 ∧ dy.natAbs < 3 then tempTasks
  else if d.type == DragType.move then
    let dayOffsetHorizontal := jsRound dx d.dayWidth
    let weekOffsetVertical := if 0 < d.weekHeight then jsRound dy d.weekHeight else 0
    let totalDayOffset := dayOffsetHorizontal + weekOffsetVertical * 7
    d.relatedTasks.foldl (fun acc r => updateFirstById acc r totalDayOffset) tempTasks
  else
    let dayOffset := jsRound dx d.dayWidth
    let se := resizeDates d.type d.taskInitialStartDate d.taskInitialEndDate dayOffset
    tempTasks.map (fun t =>
      if t.id == d.task.id then { d.task with startDate := se.1, endDate := se.2 } else t)

/-- Shift both dates of a task by `n` days (the rigid translation the
move branch realizes). -/
def shiftTaskBy (t : Task) (n : Int) : Task :=
  { t with startDate := t.startDate + n, endDate := t.endDate + n }

/-- The date overwrite a single related snapshot applies to a matching
task. -/
def applySnap (r : RelatedTask) (off : Int) (y : Task) : Task :=
  if y.id = r.id then
    { y with startDate := r.initialStart + off,
             endDate := r.initialStart + off + (r.initialEnd - r.initialStart) }
  else y

theorem applySnap_id (r : RelatedTask) (off : Int) (y : Task) :
    (applySnap r off y).id = y.id := by
  by_cases hc : y.id = r.id <;> simp [applySnap, hc]

theorem updateFirstById_eq_map (r : RelatedTask) (off : Int) :
    ∀ tasks : List Task, (tasks.map Task.id).Nodup →
      updateFirstById tasks r off = tasks.map (applySnap r off) := by
  intro tasks
  induction tasks with
  | nil => intro _; rfl
  | cons t ts ih =>
    intro hnd
    rw [List.map_cons, List.nodup_cons] at hnd
    obtain ⟨hni, hnd2⟩ := hnd
    simp only [updateFirstById, List.map_cons]
    by_cases hb : (t.id == r.id) = true
    · rw [if_pos hb]
      have he : t.id = r.id := by simpa using hb
      have hfix : ts.map (applySnap r off) = ts := by
        refine (List.map_congr_left ?_).trans (List.map_id ts)
        intro x hx
        have hne : ¬ x.id = r.id := by
          intro hxe
          exact hni (by
            have hxt : x.id = t.id := hxe.trans he.symm
            exact hxt ▸ List.mem_map_of_mem Task.id hx)
        simp [applySnap, hne]
      rw [hfix]
      simp [applySnap, he]
    · rw [if_neg hb]
      have he : ¬ t.id = r.id := by simpa using hb
      rw [ih hnd2]
      simp [applySnap, he]

theorem map_applySnap_ids (r : RelatedTask) (off : Int) (tasks : List Task) :
    (tasks.map (applySnap r off)).map Task.id = tasks.map Task.id := by
  rw [List.map_map]
  exact List.map_congr_left (fun t _ => applySnap_id r off t)

theorem foldl_updateFirstById_eq_map (off : Int) :
    ∀ (rs : List RelatedTask) (tasks : List Task), (tasks.map Task.id).Nodup →
      rs.foldl (fun acc r => updateFirstById acc r off) tasks =
        tasks.map (fun t => rs.foldl (fun y r => applySnap r off y) t) := by
  intro rs
  induction rs with
  | nil => intro tasks _; simp
  | cons r rs ih =>
    intro tasks h
    simp only [List.foldl_cons]
    rw [updateFirstById_eq_map r off tasks h]
    rw [ih (tasks.map (applySnap r off)) (by rw [map_applySnap_ids]; exact h)]
    rw [List.map_map]
    rfl

theorem foldl_applySnap_of_not_mem (off : Int) (y : Task) :
    ∀ rs : List RelatedTask, (∀ r ∈ rs, r.id ≠ y.id) →
      rs.foldl (fun y r => applySnap r off y) y = y := by
  intro rs
  induction rs with
  | nil => intro _; rfl
  | cons r rs ih =>
    intro h
    simp only [List.foldl_cons]
    have h1 : applySnap r off y = y := by
      simp only [applySnap]
      rw [if_neg]
      intro he
      exact h r (List.mem_cons_self _ _) he.symm
    rw [h1]
    exact ih (fun r2 h2 => h r2 (List.mem_cons_of_mem _ h2))

theorem foldl_applySnap_split (off : Int) (y : Task) (r : RelatedTask)
    (rs1 rs2 : List RelatedTask) (hr : r.id = y.id)
    (h1 : ∀ r2 ∈ rs1, r2.id ≠ y.id) (h2 : ∀ r2 ∈ rs2, r2.id ≠ y.id) :
    (rs1 ++ r :: rs2).foldl (fun y r => applySnap r off y) y =
      { y with startDate := r.initialStart + off,
               endDate := r.initialStart + off + (r.initialEnd - r.initialStart) } := by
  rw [List.foldl_append]
  rw [foldl_applySnap_of_not_mem off y rs1 h1]
  simp only [List.foldl_cons]
  have hstep : applySnap r off y =
      { y with startDate := r.initialStart + off,
               endDate := r.initialStart + off + (r.initialEnd - r.initialStart) } := by
    simp [applySnap, hr.symm]
  rw [hstep]
  exact foldl_applySnap_of_not_mem off _ rs2 h2

theorem moveDrag_eq_shift (tasks : List Task) (gid : Nat) (off : Int)
    (hnd : (tasks.map Task.id).Nodup) :
    (((tasks.filter (fun t => t.groupId == some gid)).map
        (fun t => (⟨t.id, t.startDate, t.endDate⟩ : RelatedTask))).foldl
      (fun acc r => updateFirstById acc r off) tasks) =
    tasks.map (fun t => if t.groupId == some gid then shiftTaskBy t off else t) := by
  rw [foldl_updateFirstById_eq_map off _ tasks hnd]
  apply List.map_congr_left
  intro x hx
  have hfnd : ((tasks.filter (fun t => t.groupId == some gid)).map Task.id).Nodup :=
    hnd.sublist ((List.filter_sublist tasks).map Task.id)
  by_cases hq : (x.groupId == some gid) = true
  · rw [if_pos hq]
    have hmemf : x ∈ tasks.filter (fun t => t.groupId == some gid) :=
      List.mem_filter.mpr ⟨hx, hq⟩
    rcases List.append_of_mem hmemf with ⟨l1, l2, hsplit⟩
    have hids : ((l1 ++ x :: l2).map Task.id).Nodup := hsplit ▸ hfnd
    rw [List.map_append, List.map_cons] at hids
    have hnotm : x.id ∉ l1.map Task.id ∧ x.id ∉ l2.map Task.id := by
      rw [List.nodup_append] at hids
      obtain ⟨hA, hB, hC⟩ := hids
      rw [List.nodup_cons] at hB
      exact ⟨fun hm => hC hm (List.mem_cons_self _ _), hB.1⟩
    have h1 : ∀ r2 ∈ l1.map (fun t => (⟨t.id, t.startDate, t.endDate⟩ : RelatedTask)),
        r2.id ≠ x.id := by
      intro r2 hr2
      rcases List.mem_map.mp hr2 with ⟨y, hy, rfl⟩
      intro he
      exact hnotm.1 (he ▸ List.mem_map_of_mem Task.id hy)
    have h2 : ∀ r2 ∈ l2.map (fun t => (⟨t.id, t.startDate, t.endDate⟩ : RelatedTask)),
        r2.id ≠ x.id := by
      intro r2 hr2
      rcases List.mem_map.mp hr2 with ⟨y, hy, rfl⟩
      intro he
      exact hnotm.2 (he ▸ List.mem_map_of_mem Task.id hy)
    rw [hsplit, List.map_append, List.map_cons]
    rw [foldl_applySnap_split off x _ _ _ rfl h1 h2]
    have hb : x.startDate + off + (x.endDate - x.startDate) = x.endDate + off := by ring
    simp [shiftTaskBy, hb]
  · rw [if_neg hq]
    apply foldl_applySnap_of_not_mem
    intro r hr
    rcases List.mem_map.mp hr with ⟨y, hy, rfl⟩
    intro he
    have hyx : y = x :=
      List.inj_on_of_nodup_map hnd (List.mem_of_mem_filter hy) hx he
    exact hq (hyx ▸ (List.mem_filter.mp hy).2)

/-- C4: dragging a grouped task with pointer delta (dx, dy) past the 3px
threshold shifts EVERY task sharing the groupId by exactly
`n = round(dx / columnWidth) + round(dy / rowHeight) * 7` days from its
snapshotted dates, preserving each task's duration (both endpoints shift
by `n`), hence all pairwise date deltas between group members are
unchanged; ungrouped tasks are untouched. -/
theorem c4_rigid_group_move (p : Project) (taskProp t : Task) (gid : Nat)
    (mx0 my0 mx my w h : Int)
    (hnd : (p.tasks.map Task.id).Nodup)
    (hfind : p.tasks.find? (fun x => x.id == taskProp.id) = some t)
    (hg : t.groupId = some gid)
    (hh : 0 < h)
    (hth : ¬ ((mx - mx0).natAbs < 3 ∧ (my - my0).natAbs < 3)) :
    handleMouseMove (handleTaskDragStart p taskProp DragType.move mx0 my0 w h) p.tasks mx my =
      p.tasks.map (fun x =>
        if x.groupId == some gid then
          shiftTaskBy x (jsRound (mx - mx0) w + jsRound (my - my0) h * 7)
        else x) := by
  have hrel : buildRelatedTasks p.tasks t DragType.move =
      (p.tasks.filter (fun x => x.groupId == some gid)).map
        (fun x => (⟨x.id, x.startDate, x.endDate⟩ : RelatedTask)) := by
    simp [buildRelatedTasks, hg]
  simp only [handleTaskDragStart, hfind, Option.getD_some]
  simp only [handleMouseMove, hrel]
  rw [if_neg hth]
  simp only [beq_self_eq_true, if_true, if_pos hh]
  exact moveDrag_eq_shift p.tasks gid (jsRound (mx - mx0) w + jsRound (my - my0) h * 7) hnd

/-- C4 witness: two tasks in group 4 plus one ungrouped task; dragging
task 1 by 50px at 10px per column and 120px per row moves both group
members by 5 days, preserving durations, and leaves task 3 alone. -/
theorem c4_witness :
    handleMouseMove
        (handleTaskDragStart
          (Project.mk 0 "P" 0 30
            [Task.mk 1 "a" 0 2 none (some 4), Task.mk 2 "b" 10 11 none (some 4),
              Task.mk 3 "c" 20 20 none none] [] [])
          (Task.mk 1 "a" 0 2 none (some 4)) DragType.move 0 0 10 120)
        [Task.mk 1 "a" 0 2 none (some 4), Task.mk 2 "b" 10 11 none (some 4),
          Task.mk 3 "c" 20 20 none none] 50 0 =
      [Task.mk 1 "a" 5 7 none (some 4), Task.mk 2 "b" 15 16 none (some 4),
        Task.mk 3 "c" 20 20 none none] :=
  (c4_rigid_group_move
      (Project.mk 0 "P" 0 30
        [Task.mk 1 "a" 0 2 none (some 4), Task.mk 2 "b" 10 11 none (some 4),
          Task.mk 3 "c" 20 20 none none] [] [])
      (Task.mk 1 "a" 0 2 none (some 4)) (Task.mk 1 "a" 0 2 none (some 4)) 4
      0 0 50 0 10 120 (by decide) (by decide) (by decide) (by decide) (by decide)).trans
    (by decide)

/-- C5: for a resize-start drag past the threshold the resized task's
new start is `min(snapStart + round(dx / columnWidth), snapEnd)` — it
never passes the fixed end — and for a resize-end drag the new end is
`max(snapEnd + round(dx / columnWidth), snapStart)`; in both cases the
resized task satisfies `start <= end` afterwards. -/
theorem c5_resize_clamp (p : Project) (taskProp t : Task) (ty : DragType)
    (mx0 my0 mx my w h : Int) (tempTasks : List Task)
    (hfind : p.tasks.find? (fun x => x.id == taskProp.id) = some t)
    (hty : ty = DragType.resizeStart ∨ ty = DragType.resizeEnd)
    (hth : ¬ ((mx - mx0).natAbs < 3 ∧ (my - my0).natAbs < 3)) :
    ∀ u ∈ handleMouseMove (handleTaskDragStart p taskProp ty mx0 my0 w h) tempTasks mx my,
      u.id = t.id →
        u.startDate ≤ u.endDate ∧
        (ty = DragType.resizeStart →
          u.endDate = t.endDate ∧
          u.startDate = min (t.startDate + jsRound (mx - mx0) w) t.endDate) ∧
        (ty = DragType.resizeEnd →
          u.startDate = t.startDate ∧
          u.endDate = max (t.endDate + jsRound (mx - mx0) w) t.startDate) := by
  intro u hu huid
  have hmove : (ty == DragType.move) = false := by
    rcases hty with rfl | rfl <;> decide
  simp only [handleTaskDragStart, hfind, Option.getD_some] at hu
  simp only [handleMouseMove] at hu
  rw [if_neg hth] at hu
  rw [hmove] at hu
  simp only [Bool.false_eq_true, if_false] at hu
  rcases List.mem_map.mp hu with ⟨t0, ht0, hrw⟩
  by_cases hb : (t0.id == t.id) = true
  · rw [if_pos hb] at hrw
    subst hrw
    rcases hty with rfl | rfl
    · refine ⟨?_, ?_, ?_⟩
      · show (if t.endDate < t.startDate + jsRound (mx - mx0) w then t.endDate
            else t.startDate + jsRound (mx - mx0) w) ≤ t.endDate
        by_cases hlt : t.endDate < t.startDate + jsRound (mx - mx0) w
        · rw [if_pos hlt]
        · rw [if_neg hlt]
          omega
      · intro _
        refine ⟨rfl, ?_⟩
        show (if t.endDate < t.startDate + jsRound (mx - mx0) w then t.endDate
            else t.startDate + jsRound (mx - mx0) w) =
          min (t.startDate + jsRound (mx - mx0) w) t.endDate
        by_cases hlt : t.endDate < t.startDate + jsRound (mx - mx0) w
        · rw [if_pos hlt]
          omega
        · rw [if_neg hlt]
          omega
      · intro hc
        cases hc
    · refine ⟨?_, ?_, ?_⟩
      · show t.startDate ≤ (if t.endDate + jsRound (mx - mx0) w < t.startDate then t.startDate
            else t.endDate + jsRound (mx - mx0) w)
        by_cases hlt : t.endDate + jsRound (mx - mx0) w < t.startDate
        · rw [if_pos hlt]
        · rw [if_neg hlt]
          omega
      · intro hc
        cases hc
      · intro _
        refine ⟨rfl, ?_⟩
        show (if t.endDate + jsRound (mx - mx0) w < t.startDate then t.startDate
            else t.endDate + jsRound (mx - mx0) w) =
          max (t.endDate + jsRound (mx - mx0) w) t.startDate
        by_cases hlt : t.endDate + jsRound (mx - mx0) w < t.startDate
        · rw [if_pos hlt]
          omega
        · rw [if_neg hlt]
          omega
  · rw [if_neg hb] at hrw
    subst hrw
    exact absurd (by simpa using huid) hb

/-- C5 witness: a resize-start drag by +100px (10 days at 10px per
column) on a task spanning days 5..7 would push the start past the end,
so the start clamps to the fixed end 7 and the task ends up with
`start = end = 7`. -/
theorem c5_witness :
    (Task.mk 1 "a" 7 7 none none).startDate ≤ (Task.mk 1 "a" 7 7 none none).endDate ∧
    (DragType.resizeStart = DragType.resizeStart →
      (Task.mk 1 "a" 7 7 none none).endDate = (Task.mk 1 "a" 5 7 none none).endDate ∧
      (Task.mk 1 "a" 7 7 none none).startDate =
        min ((Task.mk 1 "a" 5 7 none none).startDate + jsRound (100 - 0) 10)
          ((Task.mk 1 "a" 5 7 none none).endDate)) ∧
    (DragType.resizeStart = DragType.resizeEnd →
      (Task.mk 1 "a" 7 7 none none).startDate = (Task.mk 1 "a" 5 7 none none).startDate ∧
      (Task.mk 1 "a" 7 7 none none).endDate =
        max ((Task.mk 1 "a" 5 7 none none).endDate + jsRound (100 - 0) 10)
          ((Task.mk 1 "a" 5 7 none none).startDate)) :=
  c5_resize_clamp (Project.mk 0 "P" 0 30 [Task.mk 1 "a" 5 7 none none] [] [])
    (Task.mk 1 "a" 5 7 none none) (Task.mk 1 "a" 5 7 none none) DragType.resizeStart
    0 0 100 0 10 120 [Task.mk 1 "a" 5 7 none none]
    (by decide) (Or.inl rfl) (by decide)
    (Task.mk 1 "a" 7 7 none none) (by decide) rfl

/-- Three tasks in group 7, used to witness the amended C2. -/
def projC2W : Project :=
  ⟨0, "P", 0, 30,
    [⟨1, "a", 0, 1, none, some 7⟩, ⟨2, "b", 5, 6, none, some 7⟩,
      ⟨3, "c", 9, 9, none, some 7⟩],
    [], [⟨7, "G", [1, 2, 3], [3, 2]⟩]⟩

/-- C2 witness: unlinking task 2 from the three-member group 7 clears
task 2's groupId, keeps the remaining members 1 and 3 unchanged (their
groupId still 7), and keeps group 7 with exactly the remaining ids
[1, 3]. -/
theorem c2_witness :
    (∀ t ∈ (handleUnlinkTask projC2W 2 7).tasks, t.id = 2 → t.groupId = none) ∧
    (∀ t ∈ projC2W.tasks, ¬ t.id = 2 → t ∈ (handleUnlinkTask projC2W 2 7).tasks) ∧
    ((TaskGroup.mk 7 "G" [1, 2, 3] [3, 2]).taskIds.filter (fun i => i != 2) = [] →
      (handleUnlinkTask projC2W 2 7).groups =
        projC2W.groups.filter (fun g => !(g.id == 7))) ∧
    ((TaskGroup.mk 7 "G" [1, 2, 3] [3, 2]).taskIds.filter (fun i => i != 2) ≠ [] →
      ∃ g2 ∈ (handleUnlinkTask projC2W 2 7).groups, g2.id = 7 ∧
        g2.taskIds = (TaskGroup.mk 7 "G" [1, 2, 3] [3, 2]).taskIds.filter (fun i => i != 2)) :=
  c2_amended_unlink projC2W 2 7 (TaskGroup.mk 7 "G" [1, 2, 3] [3, 2]) (by decide)

/-- Task side of bidirectional membership: every task with a `groupId`
references a group of the collection whose `taskIds` contains the task's
id. -/
def InvTasks (p : Project) : Prop :=
  ∀ t ∈ p.tasks, t.groupId = none ∨
    ∃ g ∈ p.groups, t.groupId = some g.id ∧ t.id ∈ g.taskIds

/-- Group side of bidirectional membership: every id in a group's
`taskIds` references a task whose `groupId` equals the group's id. -/
def InvGroups (p : Project) : Prop :=
  ∀ g ∈ p.groups, ∀ i ∈ g.taskIds, ∃ t ∈ p.tasks, t.id = i ∧ t.groupId = some g.id

/-- Multiplicity side: every task pointing at a group appears in that
group's `taskIds` exactly once. -/
def InvCount (p : Project) : Prop :=
  ∀ g ∈ p.groups, ∀ t ∈ p.tasks, t.groupId = some g.id → g.taskIds.count t.id = 1

/-- The bidirectional membership invariant of the spec. -/
def Inv (p : Project) : Prop := InvTasks p ∧ InvGroups p ∧ InvCount p

instance invTasksDecidable (p : Project) : Decidable (InvTasks p) := by
  unfold InvTasks
  infer_instance

instance invGroupsDecidable (p : Project) : Decidable (InvGroups p) := by
  unfold InvGroups
  infer_instance

instance invCountDecidable (p : Project) : Decidable (InvCount p) := by
  unfold InvCount
  infer_instance

instance invDecidable (p : Project) : Decidable (Inv p) := by
  unfold Inv
  infer_instance

theorem inv_deleteGroup (p : Project) (gid : Nat) (hp : Inv p) :
    Inv (handleDeleteGroup p gid) := by
  obtain ⟨h1, h2, h3⟩ := hp
  refine ⟨?_, ?_, ?_⟩
  · intro t' ht'
    simp only [handleDeleteGroup, List.mem_map] at ht'
    rcases ht' with ⟨t0, ht0, hrw⟩
    by_cases hb : (t0.groupId == some gid) = true
    · rw [if_pos hb] at hrw
      subst hrw
      left
      rfl
    · rw [if_neg hb] at hrw
      subst hrw
      rcases h1 t0 ht0 with hnone | ⟨g, hg, hgi, hmemi⟩
      · left
        exact hnone
      · right
        refine ⟨g, ?_, hgi, hmemi⟩
        simp only [handleDeleteGroup, List.mem_filter]
        refine ⟨hg, ?_⟩
        have hne : ¬ t0.groupId = some gid := by simpa using hb
        have hce : ¬ g.id = gid := by
          intro he
          exact hne (hgi.trans (by rw [he]))
        simp [hce]
  · intro g hg i hi
    simp only [handleDeleteGroup, List.mem_filter] at hg
    obtain ⟨hgm, hgb⟩ := hg
    have hce : ¬ g.id = gid := by simpa using hgb
    obtain ⟨t, ht, htid, htg⟩ := h2 g hgm i hi
    have hftb : (t.groupId == some gid) = false := by
      simp only [beq_eq_false_iff_ne, ne_eq, htg]
      intro he
      exact hce (by simpa using he)
    refine ⟨t, ?_, htid, htg⟩
    simp only [handleDeleteGroup, List.mem_map]
    refine ⟨t, ht, ?_⟩
    rw [if_neg (by simp [hftb])]
  · intro g hg t' ht' hgid'
    simp only [handleDeleteGroup, List.mem_filter] at hg
    obtain ⟨hgm, hgb⟩ := hg
    simp only [handleDeleteGroup, List.mem_map] at ht'
    rcases ht' with ⟨t0, ht0, hrw⟩
    by_cases hb : (t0.groupId == some gid) = true
    · rw [if_pos hb] at hrw
      subst hrw
      exact absurd hgid' (by simp)
    · rw [if_neg hb] at hrw
      subst hrw
      exact h3 g hgm t0 ht0 hgid'

theorem inv_unlinkTask (p : Project) (taskId groupId : Nat) (hp : Inv p)
    (hT : (p.tasks.map Task.id).Nodup) (hG : (p.groups.map TaskGroup.id).Nodup)
    (hmem : ∀ g0 ∈ p.groups, g0.id = groupId → taskId ∈ g0.taskIds) :
    Inv (handleUnlinkTask p taskId groupId) := by
  obtain ⟨h1, h2, h3⟩ := hp
  cases hfind : p.groups.find? (fun g => g.id == groupId) with
  | none =>
    simp only [handleUnlinkTask, hfind]
    exact ⟨h1, h2, h3⟩
  | some g0 =>
    have hg0mem : g0 ∈ p.groups := List.mem_of_find?_eq_some hfind
    have hg0id : g0.id = groupId := by
      have h := List.find?_some hfind
      simpa using h
    have htaskmem : taskId ∈ g0.taskIds := hmem g0 hg0mem hg0id
    obtain ⟨t1, ht1, ht1id, ht1g⟩ := h2 g0 hg0mem taskId htaskmem
    have huniqG : ∀ g ∈ p.groups, g.id = groupId → g = g0 := fun g hg he =>
      List.inj_on_of_nodup_map hG hg hg0mem (he.trans hg0id.symm)
    have hBfact : ∀ g ∈ p.groups, ¬ g.id = groupId → ∀ t ∈ p.tasks,
        t.groupId = some g.id → ¬ t.id = taskId := by
      intro g hg hgne t ht htg he
      have htt1 : t = t1 := List.inj_on_of_nodup_map hT ht ht1 (he.trans ht1id.symm)
      apply hgne
      have hsome : some g0.id = some g.id := ht1g.symm.trans (htt1 ▸ htg)
      rw [← Option.some.inj hsome]
      exact hg0id
    by_cases hlen : (g0.taskIds.filter (fun i => i != taskId)).length = 0
    · have hremnil : g0.taskIds.filter (fun i => i != taskId) = [] :=
        List.length_eq_zero.mp hlen
      refine ⟨?_, ?_, ?_⟩
      · intro t' ht'
        simp only [handleUnlinkTask, hfind, List.mem_map] at ht'
        rcases ht' with ⟨t0, ht0, hrw⟩
        by_cases hb : (t0.id == taskId) = true
        · rw [if_pos hb] at hrw
          subst hrw
          left
          rfl
        · rw [if_neg hb] at hrw
          subst hrw
          rcases h1 t0 ht0 with hnone | ⟨g, hg, hgi, hmemi⟩
          · left
            exact hnone
          · right
            have hne0 : ¬ t0.id = taskId := by simpa using hb
            have hgne : ¬ g.id = groupId := by
              intro he
              have hgg0 : g = g0 := huniqG g hg he
              have hmem2 : t0.id ∈ g0.taskIds.filter (fun i => i != taskId) :=
                List.mem_filter.mpr ⟨hgg0 ▸ hmemi, by simpa using hne0⟩
              rw [hremnil] at hmem2
              simp at hmem2
            refine ⟨g, ?_, hgi, hmemi⟩
            simp only [handleUnlinkTask, hfind]
            rw [if_pos hlen]
            simp only [List.mem_filter]
            exact ⟨hg, by simpa using hgne⟩
      · intro g hg i hi
        simp only [handleUnlinkTask, hfind] at hg
        rw [if_pos hlen] at hg
        simp only [List.mem_filter] at hg
        obtain ⟨hgm, hgb⟩ := hg
        have hgne : ¬ g.id = groupId := by simpa using hgb
        obtain ⟨t, ht, htid, htg⟩ := h2 g hgm i hi
        have htne : ¬ t.id = taskId := hBfact g hgm hgne t ht htg
        refine ⟨t, ?_, htid, htg⟩
        simp only [handleUnlinkTask, hfind, List.mem_map]
        refine ⟨t, ht, ?_⟩
        rw [if_neg (by simpa using htne)]
      · intro g hg t' ht' hgid'
        simp only [handleUnlinkTask, hfind] at hg
        rw [if_pos hlen] at hg
        simp only [List.mem_filter] at hg
        obtain ⟨hgm, hgb⟩ := hg
        simp only [handleUnlinkTask, hfind, List.mem_map] at ht'
        rcases ht' with ⟨t0, ht0, hrw⟩
        by_cases hb : (t0.id == taskId) = true
        · rw [if_pos hb] at hrw
          subst hrw
          exact absurd hgid' (by simp)
        · rw [if_neg hb] at hrw
          subst hrw
          exact h3 g hgm t0 ht0 hgid'
    · refine ⟨?_, ?_, ?_⟩
      · intro t' ht'
        simp only [handleUnlinkTask, hfind, List.mem_map] at ht'
        rcases ht' with ⟨t0, ht0, hrw⟩
        by_cases hb : (t0.id == taskId) = true
        · rw [if_pos hb] at hrw
          subst hrw
          left
          rfl
        · rw [if_neg hb] at hrw
          subst hrw
          rcases h1 t0 ht0 with hnone | ⟨g, hg, hgi, hmemi⟩
          · left
            exact hnone
          · right
            have hne0 : ¬ t0.id = taskId := by simpa using hb
            by_cases hgid : (g.id == groupId) = true
            · have hgg0 : g = g0 := huniqG g hg (by simpa using hgid)
              refine ⟨{ g0 with
                  taskIds := g0.taskIds.filter (fun i => i != taskId),
                  intervals := adjacentIntervals (jsSort startLE
                    ((g0.taskIds.filter (fun i => i != taskId)).filterMap
                      (taskMapGet p.tasks))) }, ?_, ?_, ?_⟩
              · simp only [handleUnlinkTask, hfind]
                rw [if_neg hlen]
                simp only [List.mem_map]
                refine ⟨g0, hg0mem, ?_⟩
                rw [if_pos (by simpa using hg0id)]
              · rw [hgi, hgg0]
              · exact List.mem_filter.mpr ⟨hgg0 ▸ hmemi, by simpa using hne0⟩
            · refine ⟨g, ?_, hgi, hmemi⟩
              simp only [handleUnlinkTask, hfind]
              rw [if_neg hlen]
              simp only [List.mem_map]
              refine ⟨g, hg, ?_⟩
              rw [if_neg hgid]
      · intro g' hg' i hi
        simp only [handleUnlinkTask, hfind] at hg'
        rw [if_neg hlen] at hg'
        simp only [List.mem_map] at hg'
        rcases hg' with ⟨g, hg, hrwg⟩
        by_cases hgid : (g.id == groupId) = true
        · rw [if_pos hgid] at hrwg
          subst hrwg
          obtain ⟨hig0, hineb⟩ := List.mem_filter.mp hi
          have hine : ¬ i = taskId := by simpa using hineb
          obtain ⟨t, ht, htid, htg⟩ := h2 g0 hg0mem i hig0
          refine ⟨t, ?_, htid, ?_⟩
          · simp only [handleUnlinkTask, hfind, List.mem_map]
            refine ⟨t, ht, ?_⟩
            rw [if_neg (by simp only [beq_iff_eq, htid]; exact hine)]
          · exact htg
        · rw [if_neg hgid] at hrwg
          subst hrwg
          obtain ⟨t, ht, htid, htg⟩ := h2 g hg i hi
          have htne : ¬ t.id = taskId := hBfact g hg (by simpa using hgid) t ht htg
          refine ⟨t, ?_, htid, htg⟩
          simp only [handleUnlinkTask, hfind, List.mem_map]
          refine ⟨t, ht, ?_⟩
          rw [if_neg (by simpa using htne)]
      · intro g' hg' t' ht' hgid'
        simp only [handleUnlinkTask, hfind] at hg'
        rw [if_neg hlen] at hg'
        simp only [List.mem_map] at hg'
        rcases hg' with ⟨g, hg, hrwg⟩
        simp only [handleUnlinkTask, hfind, List.mem_map] at ht'
        rcases ht' with ⟨t0, ht0, hrw⟩
        by_cases hb : (t0.id == taskId) = true
        · rw [if_pos hb] at hrw
          subst hrw
          exact absurd hgid' (by simp)
        · rw [if_neg hb] at hrw
          subst hrw
          have hne0 : ¬ t0.id = taskId := by simpa using hb
          by_cases hgid : (g.id == groupId) = true
          · rw [if_pos hgid] at hrwg
            subst hrwg
            have hgid0 : t0.groupId = some g0.id := hgid'
            have hcnt := h3 g0 hg0mem t0 ht0 hgid0
            rw [List.count_filter (by simpa using hne0)]
            exact hcnt
          · rw [if_neg hgid] at hrwg
            subst hrwg
            exact h3 g hg t0 ht0 hgid'

theorem findTask_id {tasks : List Task} {i : Nat} {t : Task}
    (h : findTask tasks i = some t) : t.id = i := by
  have hb := List.find?_some h
  simpa using hb

theorem selectedIds_eq_filter (tasks : List Task) :
    ∀ sids : List Nat, (sids.filterMap (findTask tasks)).map (fun t => t.id) =
      sids.filter (fun i => (findTask tasks i).isSome) := by
  intro sids
  induction sids with
  | nil => rfl
  | cons i is ih =>
    cases hf : findTask tasks i with
    | none => simp [List.filterMap_cons, List.filter_cons, hf, ih]
    | some t =>
      have hti : t.id = i := findTask_id hf
      simp [List.filterMap_cons, List.filter_cons, hf, ih, hti]

theorem newIds_nodup (p : Project) (sids : List Nat) (hs : sids.Nodup) :
    ((selectedSorted p.tasks sids).map (fun t => t.id)).Nodup := by
  have hperm : ((selectedSorted p.tasks sids).map (fun t => t.id)).Perm
      ((sids.filterMap (findTask p.tasks)).map (fun t => t.id)) :=
    (jsSort_perm startLE _).map _
  have h2 : ((sids.filterMap (findTask p.tasks)).map (fun t => t.id)).Nodup := by
    rw [selectedIds_eq_filter]
    exact hs.filter _
  exact hperm.nodup_iff.mpr h2

theorem mem_selectedSorted {tasks : List Task} {sids : List Nat} {t : Task}
    (ht : t ∈ selectedSorted tasks sids) : t ∈ tasks := by
  rcases List.mem_filterMap.mp ((mem_jsSort _ _ _).mp ht) with ⟨i, _, hf⟩
  exact List.mem_of_find?_eq_some hf

theorem inv_createGroup (p : Project) (sids : List Nat) (gname : String) (newGid : Nat)
    (hp : Inv p) (hs : sids.Nodup) (hfresh : newGid ∉ p.groups.map TaskGroup.id) :
    Inv (handleCreateGroup p sids gname newGid).1 := by
  obtain ⟨h1, h2, h3⟩ := hp
  by_cases hbn : blankName gname = true
  · simp only [handleCreateGroup, if_pos hbn]
    exact ⟨h1, h2, h3⟩
  · have hbf : blankName gname = false := by
      revert hbn
      cases blankName gname <;> simp
    by_cases hlen : (selectedSorted p.tasks sids).length < 2
    · simp only [handleCreateGroup, hbf, Bool.false_eq_true, if_false, if_pos hlen]
      exact ⟨h1, h2, h3⟩
    · rw [handleCreateGroup_success p sids gname newGid hbf hlen]
      have hnids : ((selectedSorted p.tasks sids).map (fun t => t.id)).Nodup :=
        newIds_nodup p sids hs
      refine ⟨?_, ?_, ?_⟩
      · intro t' ht'
        simp only [List.mem_map] at ht'
        rcases ht' with ⟨t0, ht0, hrw⟩
        by_cases hc : (((selectedSorted p.tasks sids).map (fun t => t.id)).contains t0.id) = true
        · rw [if_pos hc] at hrw
          subst hrw
          right
          refine ⟨⟨newGid, gname, (selectedSorted p.tasks sids).map (fun t => t.id),
            adjacentIntervals (selectedSorted p.tasks sids)⟩,
            List.mem_append_right _ (List.mem_singleton.mpr rfl), rfl, ?_⟩
          simpa using hc
        · rw [if_neg hc] at hrw
          subst hrw
          rcases h1 t0 ht0 with hnone | ⟨g, hg, hgi, hmemi⟩
          · left
            exact hnone
          · right
            have hrem : t0.id ∈ g.taskIds.filter
                (fun i => !(((selectedSorted p.tasks sids).map (fun t => t.id)).contains i)) := by
              refine List.mem_filter.mpr ⟨hmemi, ?_⟩
              simp only [Bool.not_eq_true'] at hc ⊢
              simpa using hc
            cases hpg : purgeGroup p.tasks ((selectedSorted p.tasks sids).map (fun t => t.id)) g with
            | none =>
              exact absurd (purgeGroup_eq_none _ _ hpg) (List.ne_nil_of_mem hrem)
            | some g' =>
              obtain ⟨hid, hids, -⟩ := purgeGroup_eq_some _ _ hpg
              refine ⟨g', List.mem_append_left _ (List.mem_filterMap.mpr ⟨g, hg, hpg⟩), ?_, ?_⟩
              · rw [hgi, hid]
              · rw [hids]
                exact hrem
      · intro g' hg' i hi
        rcases List.mem_append.mp hg' with hcl | hnew
        · rcases List.mem_filterMap.mp hcl with ⟨g, hg, hpg⟩
          obtain ⟨hid, hids, -⟩ := purgeGroup_eq_some _ _ hpg
          have hi2 : i ∈ g.taskIds ∧
              ((((selectedSorted p.tasks sids).map (fun t => t.id)).contains i) = false) := by
            rw [hids] at hi
            rcases List.mem_filter.mp hi with ⟨hA, hB⟩
            exact ⟨hA, by simpa using hB⟩
          obtain ⟨t, ht, htid, htg⟩ := h2 g hg i hi2.1
          refine ⟨t, ?_, htid, ?_⟩
          · simp only [List.mem_map]
            refine ⟨t, ht, ?_⟩
            rw [if_neg (by rw [htid, hi2.2]; exact Bool.false_ne_true)]
          · rw [htg, hid]
        · rw [List.mem_singleton] at hnew
          subst hnew
          rcases List.mem_map.mp hi with ⟨t, htss, rfl⟩
          have ht : t ∈ p.tasks := mem_selectedSorted htss
          have hcont : (((selectedSorted p.tasks sids).map (fun t => t.id)).contains t.id) = true := by
            simpa using List.mem_map_of_mem (fun t => t.id) htss
          refine ⟨{ t with groupId := some newGid }, ?_, rfl, rfl⟩
          simp only [List.mem_map]
          refine ⟨t, ht, ?_⟩
          rw [if_pos hcont]
      · intro g' hg' t' ht' hgid'
        simp only [List.mem_map] at ht'
        rcases ht' with ⟨t0, ht0, hrw⟩
        rcases List.mem_append.mp hg' with hcl | hnew
        · rcases List.mem_filterMap.mp hcl with ⟨g, hg, hpg⟩
          obtain ⟨hid, hids, -⟩ := purgeGroup_eq_some _ _ hpg
          by_cases hc : (((selectedSorted p.tasks sids).map (fun t => t.id)).contains t0.id) = true
          · rw [if_pos hc] at hrw
            subst hrw
            exfalso
            apply hfresh
            have hng : newGid = g'.id := by simpa using hgid'
            rw [hng, hid]
            exact List.mem_map_of_mem TaskGroup.id hg
          · rw [if_neg hc] at hrw
            subst hrw
            have hgid0 : t0.groupId = some g.id := by
              rw [hgid', hid]
            have hcnt := h3 g hg t0 ht0 hgid0
            rw [hids]
            rw [List.count_filter (by simpa using hc)]
            exact hcnt
        · rw [List.mem_singleton] at hnew
          subst hnew
          by_cases hc : (((selectedSorted p.tasks sids).map (fun t => t.id)).contains t0.id) = true
          · rw [if_pos hc] at hrw
            subst hrw
            exact List.count_eq_one_of_mem hnids (by simpa using hc)
          · rw [if_neg hc] at hrw
            subst hrw
            exfalso
            rcases h1 t0 ht0 with hnone | ⟨g, hg, hgi, -⟩
            · rw [hnone] at hgid'
              exact absurd hgid' (by simp)
            · apply hfresh
              have hgn : g.id = newGid := by
                have hsome : some g.id = some newGid := hgi.symm.trans hgid'
                exact Option.some.inj hsome
              rw [← hgn]
              exact List.mem_map_of_mem TaskGroup.id hg

/-- C3: the bidirectional membership invariant — every task with a
`groupId` is listed by that group, every listed id belongs to a task
pointing back at the group, and each such task appears in the group's
`taskIds` exactly once — is preserved by each mutating operation
(createGroup, unlinkTask, deleteGroup).  Hypotheses: the invariant held
before, task and group ids are duplicate-free, the selection is a set,
the new group id is fresh, and the unlinked task is a current member of
the named group (the operation's documented precondition). -/
theorem c3_bidirectional_invariant (p : Project) (hp : Inv p)
    (hT : (p.tasks.map Task.id).Nodup) (hG : (p.groups.map TaskGroup.id).Nodup)
    (sids : List Nat) (gname : String) (newGid : Nat)
    (hs : sids.Nodup) (hfresh : newGid ∉ p.groups.map TaskGroup.id)
    (taskId groupId : Nat)
    (hmem : ∀ g0 ∈ p.groups, g0.id = groupId → taskId ∈ g0.taskIds)
    (delGid : Nat) :
    Inv (handleCreateGroup p sids gname newGid).1 ∧
    Inv (handleUnlinkTask p taskId groupId) ∧
    Inv (handleDeleteGroup p delGid) :=
  ⟨inv_createGroup p sids gname newGid hp hs hfresh,
   inv_unlinkTask p taskId groupId hp hT hG hmem,
   inv_deleteGroup p delGid hp⟩

/-- Three tasks, the first two in group 10, used to witness C3. -/
def projC3 : Project :=
  ⟨0, "P", 0, 30,
    [⟨1, "a", 0, 1, none, some 10⟩, ⟨2, "b", 5, 6, none, some 10⟩,
      ⟨3, "c", 9, 9, none, none⟩],
    [], [⟨10, "G", [1, 2], [3]⟩]⟩

/-- C3 witness: on a concrete consistent project the invariant survives
grouping tasks 2 and 3 into a fresh group 11, unlinking task 2 from
group 10, and deleting group 10. -/
theorem c3_witness :
    Inv (handleCreateGroup projC3 [2, 3] "n" 11).1 ∧
    Inv (handleUnlinkTask projC3 2 10) ∧
    Inv (handleDeleteGroup projC3 10) :=
  c3_bidirectional_invariant projC3
    (by decide) (by decide) (by decide)
    [2, 3] "n" 11 (by decide) (by decide)
    2 10 (by decide) 10

end Planner
